import Mathlib

/-
  Verification of the Agent-OS-Kernel core (context manager, scheduler,
  security sandbox) against its natural-language specification.

  The Rust source is shallowly embedded:
  * `HashMap` / `LruCache` become association lists (`List (κ × α)`); the
    LRU cache keeps most-recently-used entries at the head of the list,
    matching the iteration order of the `lru` crate.
  * `Uuid::new_v4()` fresh-id generation is modelled by a `next_id`
    counter carried in the state.
  * `DateTime<Utc>` timestamps are modelled as natural numbers supplied
    by the caller as a `now` argument (the code reads the wall clock).
  * `f32`/`f64` importance scores are modelled as exact rationals `Rat`.
  * machine integers (`u8`, `u32`, `u64`, `usize`) are modelled as `Nat`;
    `saturating_sub` and the `usize` subtraction in the eviction loop are
    Nat truncated subtraction (no input below ever underflows).
  * `Result<(), SecurityViolation>` becomes `Except SecurityViolation Unit`.
  * `tokio::sync::Mutex`-serialized methods become pure state-passing
    functions `State → ... → (result × State)`.
-/

namespace AgentOS

/-! ## Association-list primitives (HashMap / process-table embedding) -/

/-- `HashMap::get`: first binding of key `k`. -/
def alookup {κ α : Type} [DecidableEq κ] (k : κ) : List (κ × α) → Option α
  | [] => none
  | (k', v) :: rest => if k' = k then some v else alookup k rest

/-- `HashMap::insert`: bind `k` to `v`, replacing any previous binding. -/
def ainsert {κ α : Type} [DecidableEq κ] (k : κ) (v : α) (l : List (κ × α)) :
    List (κ × α) :=
  (k, v) :: l.filter (fun e => e.1 ≠ k)

/-- `HashMap::remove`: drop the binding of `k`. -/
def aremove {κ α : Type} [DecidableEq κ] (k : κ) (l : List (κ × α)) :
    List (κ × α) :=
  l.filter (fun e => e.1 ≠ k)

/-- In-place update of the value bound to `k` (models `get_mut` mutation). -/
def aupdate {κ α : Type} [DecidableEq κ] (k : κ) (f : α → α) (l : List (κ × α)) :
    List (κ × α) :=
  l.map (fun e => if e.1 = k then (e.1, f e.2) else e)

/-! ## Stable sort (embedding of `Vec::sort_by`, which is a stable sort).
    For a total preorder comparator a stable sort's output is uniquely
    determined, so stable insertion sort is extensionally the same
    function as Rust's stable merge sort. -/

/-- Insert `x` after every already-placed element that does not compare
    `Ordering::Greater` against it (stability for equal keys). -/
def sortInsert {α : Type} (cmp : α → α → Ordering) (x : α) :
    List α → List α
  | [] => [x]
  | y :: ys =>
    if cmp y x = Ordering.gt then x :: y :: ys else y :: sortInsert cmp x ys

/-- Stable sort by a comparator, ascending (`Vec::sort_by`). -/
def sortByCmp {α : Type} (cmp : α → α → Ordering) (l : List α) : List α :=
  l.foldl (fun acc x => sortInsert cmp x acc) []

/-- Comparator on rationals, the model of `f64::partial_cmp(..)
    .unwrap_or(Ordering::Equal)` (rationals have no NaN). -/
def ratCmp (a b : Rat) : Ordering :=
  if a < b then Ordering.lt else if b < a then Ordering.gt else Ordering.eq

/-! ## Token estimation — `estimate_tokens` in `core/context.rs` and
    `core/kernel.rs`.  Strings are embedded as their lists of Unicode
    scalar values (`List Char`). -/

/-- The CJK test `*c as u32 >= 0x4E00 && *c as u32 <= 0x9FFF`. -/
def isCJKChar (c : Char) : Bool :=
  decide (0x4E00 ≤ c.toNat) && decide (c.toNat ≤ 0x9FFF)

/-- Number of bytes of the UTF-8 encoding of one scalar value (the unit
    in which Rust's `str::len` counts). -/
def utf8CharBytes (c : Char) : Nat :=
  if c.toNat < 0x80 then 1
  else if c.toNat < 0x800 then 2
  else if c.toNat < 0x10000 then 3
  else 4

/-- `str::len`: UTF-8 byte length of a string. -/
def utf8ByteLen (s : List Char) : Nat := (s.map utf8CharBytes).sum

/-- `estimate_tokens` as written in `core/context.rs` (used for page
    `token_count`).  `english_chars` uses `saturating_sub`, which on `Nat`
    is ordinary truncated subtraction. -/
def estimateTokensContext (s : List Char) : Nat :=
  let chinese_chars := (s.filter isCJKChar).length
  let english_chars := utf8ByteLen s - chinese_chars
  chinese_chars / 2 + english_chars / 4 + 1

/-- `estimate_tokens` as written in `core/kernel.rs` (used for
    `tokens_needed` in `execute_agent_step`); textually identical to the
    context-manager copy. -/
def estimateTokensKernel (s : List Char) : Nat :=
  let chinese_chars := (s.filter isCJKChar).length
  let english_chars := utf8ByteLen s - chinese_chars
  chinese_chars / 2 + english_chars / 4 + 1

/-- The spec's formula, written from §6 of the specification:
    `tokens(s) = cjk/2 + (byte_length(s) − cjk)/4 + 1`. -/
def specTokens (s : List Char) : Nat :=
  (s.filter isCJKChar).length / 2 +
    (utf8ByteLen s - (s.filter isCJKChar).length) / 4 + 1

/-! ## Core data types (`core/types.rs`) -/

/-- `PageStatus` in `core/types.rs`. -/
inductive PageStatus
  | InMemory
  | Swapped
  | Loading
deriving DecidableEq

/-- `PageType` in `core/types.rs`. -/
inductive PageType
  | System
  | User
  | Working
  | LongTerm
  | ToolResult
  | Task
  | Tools
deriving DecidableEq

/-- `f32::clamp(0.0, 1.0)` on the rational model of `f32`. -/
def ratClamp01 (x : Rat) : Rat :=
  if x < 0 then 0 else if 1 < x then 1 else x

/-- `ContextPage` in `core/types.rs`.  `id` is a `Nat` standing for the
    freshly generated `Uuid`; timestamps are `Nat` milliseconds. -/
structure ContextPage where
  id : Nat
  agent_pid : String
  content : List Char
  importance : Rat
  page_type : PageType
  last_accessed : Nat
  created_at : Nat
  token_count : Nat
  status : PageStatus
deriving DecidableEq

/-- `ContextPage::new`: clamps importance, stamps both timestamps with
    the current time, sets status `InMemory`.  The fresh `Uuid` is the
    `id` argument (supplied by the state's `next_id` counter). -/
def ContextPage.mk_new (id : Nat) (agent_pid : String) (content : List Char)
    (importance : Rat) (page_type : PageType) (token_count : Nat)
    (now : Nat) : ContextPage :=
  { id := id
    agent_pid := agent_pid
    content := content
    importance := ratClamp01 importance
    page_type := page_type
    last_accessed := now
    created_at := now
    token_count := token_count
    status := PageStatus.InMemory }

/-- `LlmMessage` in `core/types.rs`. -/
structure LlmMessage where
  role : String
  content : List Char
  timestamp : Nat
deriving DecidableEq

/-! ## Context manager (`core/context.rs`) -/

/-- `PageReplacementPolicy`. -/
inductive PageReplacementPolicy
  | Lru
  | LruImportance
  | Importance
  | SemanticSimilarity
deriving DecidableEq

/-- `ContextConfig`. -/
structure ContextConfig where
  max_context_tokens : Nat
  working_memory_limit : Nat
  session_context_limit : Nat
  page_replacement_policy : PageReplacementPolicy
  page_size : Nat
deriving DecidableEq

/-- Capacity of the resident LRU cache:
    `NonZeroUsize::new(max/page_size*2).unwrap_or(1)`. -/
def cacheCapacity (cfg : ContextConfig) : Nat :=
  let c := cfg.max_context_tokens / cfg.page_size * 2
  if c = 0 then 1 else c

/-- The state behind the `ContextManager` locks.  `resident` models the
    `LruCache` with the most-recently-used entry at the head (the `lru`
    crate's iteration order); `swapped` and `agent_pages` model the two
    `HashMap`s; `next_id` drives fresh page-id generation. -/
structure ContextState where
  resident : List (Nat × ContextPage)
  swapped : List (Nat × ContextPage)
  agent_pages : List (String × List Nat)
  token_usage : Nat
  next_id : Nat
deriving DecidableEq

/-- The state of `ContextManager::new`. -/
def initCtx : ContextState :=
  { resident := [], swapped := [], agent_pages := [], token_usage := 0
    next_id := 0 }

/-- `LruCache::put`: (re)bind `k` at the MRU position; if the cache then
    exceeds its capacity, silently drop the LRU entry (the list's last). -/
def lruPut (cap : Nat) (m : List (Nat × ContextPage)) (k : Nat)
    (v : ContextPage) : List (Nat × ContextPage) :=
  let m' := (k, v) :: m.filter (fun e => e.1 ≠ k)
  if cap < m'.length then m'.dropLast else m'

/-- Victim ordering of `evict_pages` (ascending sort key = evicted
    first).  `last_accessed_ms as f64 * importance as f64` is modelled
    as the exact rational product. -/
def evictCmp (policy : PageReplacementPolicy) :
    (Nat × ContextPage) → (Nat × ContextPage) → Ordering :=
  match policy with
  | PageReplacementPolicy.Lru =>
      fun a b => compare a.2.last_accessed b.2.last_accessed
  | PageReplacementPolicy.LruImportance =>
      fun a b =>
        ratCmp ((a.2.last_accessed : Rat) * a.2.importance)
          ((b.2.last_accessed : Rat) * b.2.importance)
  | PageReplacementPolicy.Importance =>
      fun a b => ratCmp a.2.importance b.2.importance
  | PageReplacementPolicy.SemanticSimilarity =>
      fun a b => compare a.2.last_accessed b.2.last_accessed

/-- The body of one iteration of the eviction loop: pop the victim from
    the resident tier, insert it (unchanged) into the swap tier, erase
    its id from the owner's page list, subtract its `token_count`. -/
def evictOne (st : ContextState) (j : Nat) (page : ContextPage) :
    ContextState :=
  { resident := st.resident.filter (fun e => e.1 ≠ j)
    swapped := ainsert j page st.swapped
    agent_pages := aupdate page.agent_pid (fun ids => ids.erase j)
      st.agent_pages
    token_usage := st.token_usage - page.token_count
    next_id := st.next_id }

/-- The `while token_usage > max*90/100 && !pages.is_empty()` loop of
    `evict_pages`; returns the number of evicted pages and the state. -/
def evictLoop (cfg : ContextConfig) :
    List (Nat × ContextPage) → ContextState → Nat × ContextState
  | [], st => (0, st)
  | (j, pg) :: rest, st =>
    if cfg.max_context_tokens * 90 / 100 < st.token_usage then
      let r := evictLoop cfg rest (evictOne st j pg)
      (r.1 + 1, r.2)
    else (0, st)

/-- `ContextManager::evict_pages`. -/
def evict_pages (cfg : ContextConfig) (st : ContextState) :
    Nat × ContextState :=
  let pages := sortByCmp (evictCmp cfg.page_replacement_policy) st.resident
  evictLoop cfg pages st

/-- The page constructed by `allocate_page` (fresh id, clamped
    importance, `token_count` from `estimate_tokens`). -/
def allocFreshPage (st : ContextState) (pid : String) (content : List Char)
    (importance : Rat) (page_type : PageType) (now : Nat) : ContextPage :=
  ContextPage.mk_new st.next_id pid content importance page_type
    (estimateTokensContext content) now

/-- `entry(agent_pid).or_insert_with(Vec::new).push(page.id)`. -/
def indexPush (pid : String) (id : Nat) (idx : List (String × List Nat)) :
    List (String × List Nat) :=
  match alookup pid idx with
  | some _ => aupdate pid (fun l => l ++ [id]) idx
  | none => ainsert pid [id] idx

/-- The state of `allocate_page` after steps 1–3 (page put at MRU, id
    appended to the per-agent list, `token_usage` increased), before the
    conditional eviction of step 4. -/
def allocStaged (cfg : ContextConfig) (st : ContextState) (pid : String)
    (content : List Char) (importance : Rat) (page_type : PageType)
    (now : Nat) : ContextState :=
  let page := allocFreshPage st pid content importance page_type now
  { resident := lruPut (cacheCapacity cfg) st.resident page.id page
    swapped := st.swapped
    agent_pages := indexPush pid page.id st.agent_pages
    token_usage := st.token_usage + estimateTokensContext content
    next_id := st.next_id + 1 }

/-- `ContextManager::allocate_page`.  Returns the fresh page id and the
    new state; triggers eviction when `token_usage` exceeds the cap. -/
def allocate_page (cfg : ContextConfig) (st : ContextState) (pid : String)
    (content : List Char) (importance : Rat) (page_type : PageType)
    (now : Nat) : Nat × ContextState :=
  let page := allocFreshPage st pid content importance page_type now
  let st1 := allocStaged cfg st pid content importance page_type now
  if cfg.max_context_tokens < st1.token_usage then
    (page.id, (evict_pages cfg st1).2)
  else (page.id, st1)

/-- `ContextManager::access_page`.  A resident hit updates
    `last_accessed` and promotes to MRU; a swap hit (the "page fault"
    path) moves the page back to the resident tier unchanged. -/
def access_page (cfg : ContextConfig) (st : ContextState) (id : Nat)
    (now : Nat) : Option ContextPage × ContextState :=
  match alookup id st.resident with
  | some page =>
    let page' := { page with last_accessed := now }
    let resident' := (id, page') :: st.resident.filter (fun e => e.1 ≠ id)
    (some page', { st with resident := resident' })
  | none =>
    match alookup id st.swapped with
    | some page =>
      (some page,
        { st with
            swapped := aremove id st.swapped,
            resident := lruPut (cacheCapacity cfg) st.resident id page })
    | none => (none, st)

/-- The KV-cache type-priority ranking in `get_agent_context`. -/
def pagePriorityRank (t : PageType) : Nat :=
  match t with
  | PageType.System => 5
  | PageType.Task => 4
  | PageType.Tools => 3
  | PageType.Working => 2
  | PageType.ToolResult => 1
  | PageType.User => 0
  | PageType.LongTerm => 0

/-- The cache-optimized comparator: descending type priority, then
    descending `last_accessed`. -/
def cacheOrderCmp (a b : ContextPage) : Ordering :=
  let ap := pagePriorityRank a.page_type
  let bp := pagePriorityRank b.page_type
  if ap ≠ bp then compare bp ap else compare b.last_accessed a.last_accessed

/-- The chronological comparator: ascending `created_at`. -/
def createdOrderCmp (a b : ContextPage) : Ordering :=
  compare a.created_at b.created_at

/-- The role string derived from a page type in `get_agent_context`. -/
def roleOf (t : PageType) : String :=
  match t with
  | PageType.System => "system"
  | PageType.User => "user"
  | PageType.Task => "system"
  | PageType.Tools => "system"
  | PageType.LongTerm => "system"
  | PageType.Working => "assistant"
  | PageType.ToolResult => "assistant"

/-- The collection phase of `get_agent_context`: walk the agent's page-id
    list, taking each page from the resident tier, else from the swap
    tier, else skipping it. -/
def collectPages (st : ContextState) (pid : String) : List ContextPage :=
  match alookup pid st.agent_pages with
  | none => []
  | some ids =>
    ids.filterMap (fun id =>
      (alookup id st.resident).orElse (fun _ => alookup id st.swapped))

/-- The accumulation loop of `get_agent_context`: push a page, add its
    tokens, and break once the running total exceeds the cap — i.e. the
    page that crosses the cap is pushed before the loop stops. -/
def takeLoop (cap : Nat) : List ContextPage → Nat → List ContextPage
  | [], _ => []
  | p :: rest, total =>
    let total' := total + p.token_count
    p :: (if cap < total' then [] else takeLoop cap rest total')

/-- The pages that `get_agent_context` maps into messages, in order. -/
def includedPages (cfg : ContextConfig) (st : ContextState) (pid : String)
    (optimize_for_cache : Bool) : List ContextPage :=
  let pages := collectPages st pid
  let sorted :=
    if optimize_for_cache then sortByCmp cacheOrderCmp pages
    else sortByCmp createdOrderCmp pages
  takeLoop cfg.max_context_tokens sorted 0

/-- `ContextManager::get_agent_context` (`now` stamps the messages, as
    `LlmMessage::new` reads the clock). -/
def get_agent_context (cfg : ContextConfig) (st : ContextState)
    (pid : String) (optimize_for_cache : Bool) (now : Nat) :
    List LlmMessage :=
  (includedPages cfg st pid optimize_for_cache).map
    (fun p => { role := roleOf p.page_type, content := p.content
                timestamp := now })

/-- Sum of `token_count` over a list of pages. -/
def pageTokenSum (l : List ContextPage) : Nat :=
  (l.map ContextPage.token_count).sum

/-! ## Concrete context-manager scenarios.

    `exCtxCfg` is a small configuration (`max_context_tokens = 10`,
    `page_size = 5`, policy `Lru`, capacity 4) used to drive the
    eviction and page-fault paths on short inputs. -/

def exCtxCfg : ContextConfig :=
  { max_context_tokens := 10, working_memory_limit := 20,
    session_context_limit := 80,
    page_replacement_policy := PageReplacementPolicy.Lru, page_size := 5 }

/-- 40 ASCII bytes: `estimate_tokens = 40/4 + 1 = 11` tokens. -/
def exBig : List Char := List.replicate 40 'x'

/-- 4 ASCII bytes: 2 tokens. -/
def exSmallA : List Char := List.replicate 4 'a'

/-- 32 ASCII bytes: 9 tokens. -/
def exMidB : List Char := List.replicate 32 'b'

/-- 4 ASCII bytes: 2 tokens. -/
def exSmallC : List Char := List.replicate 4 'c'

/-- The per-agent index entry for `pid` (empty when absent). -/
def indexIds (st : ContextState) (pid : String) : List Nat :=
  (alookup pid st.agent_pages).getD []

/-- One context-manager operation.  `assemble` is `get_agent_context`,
    which takes only read locks and leaves the state unchanged. -/
inductive CtxOp
  | alloc (pid : String) (content : List Char) (importance : Rat)
      (page_type : PageType) (now : Nat)
  | access (id : Nat) (now : Nat)
  | assemble (pid : String) (optimize_for_cache : Bool) (now : Nat)
  | evict

/-- State effect of one context-manager operation. -/
def ctxStep (cfg : ContextConfig) (st : ContextState) : CtxOp → ContextState
  | CtxOp.alloc pid content importance page_type now =>
    (allocate_page cfg st pid content importance page_type now).2
  | CtxOp.access id now => (access_page cfg st id now).2
  | CtxOp.assemble _ _ _ => st
  | CtxOp.evict => (evict_pages cfg st).2

/-- No page id is owned by both tiers at once. -/
def tierDisjoint (st : ContextState) : Prop :=
  ∀ id ∈ st.resident.map Prod.fst, id ∉ st.swapped.map Prod.fst

/-- Every id in either tier predates the fresh-id counter (all ids were
    generated by the manager). -/
def idsBounded (st : ContextState) : Prop :=
  (∀ id ∈ st.resident.map Prod.fst, id < st.next_id) ∧
    (∀ id ∈ st.swapped.map Prod.fst, id < st.next_id)

/-- Well-formedness of a context-manager state. -/
def ctxWF (st : ContextState) : Prop := tierDisjoint st ∧ idsBounded st

/-- Every page in either tier still carries the creation-time status
    `InMemory` (the source never writes the `status` field again). -/
def statusAllInMemory (st : ContextState) : Prop :=
  (∀ e ∈ st.resident, (Prod.snd e).status = PageStatus.InMemory) ∧
    (∀ e ∈ st.swapped, (Prod.snd e).status = PageStatus.InMemory)

instance (st : ContextState) : Decidable (tierDisjoint st) := by
  unfold tierDisjoint; exact inferInstance

instance (st : ContextState) : Decidable (idsBounded st) := by
  unfold idsBounded; exact inferInstance

instance (st : ContextState) : Decidable (ctxWF st) := by
  unfold ctxWF; exact inferInstance

instance (st : ContextState) : Decidable (statusAllInMemory st) := by
  unfold statusAllInMemory; exact inferInstance

/-! ## Scheduler (`core/scheduler.rs`) -/

/-- `AgentState` in `core/types.rs`. -/
inductive AgentState
  | Ready
  | Running
  | Waiting
  | Suspended
  | Completed
  | Terminated
deriving DecidableEq

/-- `AgentProcess` in `core/types.rs`.  The opaque `context:
    serde_json::Value` blob is omitted: the scheduler never reads or
    writes it.  `checkpoint_id` Uuids are modelled as `Nat`. -/
structure AgentProcess where
  pid : String
  name : String
  priority : Nat
  state : AgentState
  error_count : Nat
  last_error : Option String
  max_errors : Nat
  checkpoint_id : Option Nat
deriving DecidableEq

/-- `AgentProcess::new`. -/
def AgentProcess.mk_new (pid name : String) (priority : Nat) :
    AgentProcess :=
  { pid := pid, name := name, priority := priority
    state := AgentState.Ready, error_count := 0, last_error := none
    max_errors := 3, checkpoint_id := none }

/-- `ResourceUsage` in `core/scheduler.rs`. -/
structure ResourceUsage where
  total_tokens : Nat
  window_tokens : Nat
  api_calls : Nat
  runtime_ms : Nat
  last_active : Nat
deriving DecidableEq

/-- `ResourceUsage::default` (`last_active = Utc::now()`). -/
def ResourceUsage.mk_default (now : Nat) : ResourceUsage :=
  { total_tokens := 0, window_tokens := 0, api_calls := 0, runtime_ms := 0
    last_active := now }

/-- `SchedulingPolicy`. -/
inductive SchedulingPolicy
  | Priority
  | RoundRobin
  | Fair
  | Deadline
deriving DecidableEq

/-- `SchedulerConfig`. -/
structure SchedulerConfig where
  policy : SchedulingPolicy
  default_time_slice : Nat
  max_pending_tasks : Nat
  scheduling_interval : Nat
  preemption_threshold : Nat
deriving DecidableEq

/-- `SchedulerState`. -/
structure SchedulerState where
  ready_queue : List String
  running_queue : List String
  waiting_queue : List String
  processes : List (String × AgentProcess)
  resource_usage : List (String × ResourceUsage)
deriving DecidableEq

/-- `SchedulerState::default`. -/
def initSched : SchedulerState :=
  { ready_queue := [], running_queue := [], waiting_queue := []
    processes := [], resource_usage := [] }

/-- `AgentScheduler::add_process`. -/
def add_process (st : SchedulerState) (process : AgentProcess) (now : Nat) :
    SchedulerState :=
  let usage' := ainsert process.pid (ResourceUsage.mk_default now)
    st.resource_usage
  { st with
      processes := ainsert process.pid process st.processes,
      ready_queue := st.ready_queue ++ [process.pid],
      resource_usage := usage' }

/-- One preempted pid: `running.retain(≠ pid)`, `ready.push_back`, set
    the table entry's state to Ready. -/
def preemptOne (st : SchedulerState) (pid : String) : SchedulerState :=
  let procs' := aupdate pid
    (fun p => { p with state := AgentState.Ready }) st.processes
  { st with
      running_queue := st.running_queue.filter (fun p => p ≠ pid),
      ready_queue := st.ready_queue ++ [pid],
      processes := procs' }

/-- `AgentScheduler::check_preemption`: suspend every running pid whose
    `window_tokens` strictly exceeds the threshold. -/
def check_preemption (cfg : SchedulerConfig) (st : SchedulerState) :
    SchedulerState :=
  let to_suspend := st.running_queue.filter (fun pid =>
    match alookup pid st.resource_usage with
    | some usage => decide (cfg.preemption_threshold < usage.window_tokens)
    | none => false)
  to_suspend.foldl preemptOne st

/-- The index scan of `select_priority_task`: `max_priority` starts at 0
    and `selected_index` is overwritten on every strict improvement
    (`process.priority > max_priority`); untracked pids are skipped. -/
def selectScan (procs : List (String × AgentProcess)) :
    List String → Nat → Nat → Option Nat → Nat × Option Nat
  | [], _, best, sel => (best, sel)
  | pid :: rest, i, best, sel =>
    match alookup pid procs with
    | some p =>
      if best < p.priority then selectScan procs rest (i + 1) p.priority
        (some i)
      else selectScan procs rest (i + 1) best sel
    | none => selectScan procs rest (i + 1) best sel

/-- `AgentScheduler::select_priority_task` (`ready_queue.remove(i)`
    returns the removed element). -/
def select_priority_task (st : SchedulerState) :
    Option String × SchedulerState :=
  match (selectScan st.processes st.ready_queue 0 0 none).2 with
  | some i =>
    (st.ready_queue.get? i,
      { st with ready_queue := st.ready_queue.eraseIdx i })
  | none => (none, st)

/-- `AgentScheduler::select_round_robin_task`: `ready.pop_front()`. -/
def select_round_robin_task (st : SchedulerState) :
    Option String × SchedulerState :=
  match st.ready_queue with
  | [] => (none, st)
  | pid :: rest => (some pid, { st with ready_queue := rest })

/-- The index scan of `select_fair_task`: `min_usage` starts at
    `u64::MAX` and is lowered on every strict improvement. -/
def fairScan (usage : List (String × ResourceUsage)) :
    List String → Nat → Nat → Option Nat → Nat × Option Nat
  | [], _, best, sel => (best, sel)
  | pid :: rest, i, best, sel =>
    match alookup pid usage with
    | some u =>
      if u.total_tokens < best then fairScan usage rest (i + 1)
        u.total_tokens (some i)
      else fairScan usage rest (i + 1) best sel
    | none => fairScan usage rest (i + 1) best sel

/-- `AgentScheduler::select_fair_task`. -/
def select_fair_task (st : SchedulerState) :
    Option String × SchedulerState :=
  match (fairScan st.resource_usage st.ready_queue 0 (2 ^ 64 - 1) none).2 with
  | some i =>
    (st.ready_queue.get? i,
      { st with ready_queue := st.ready_queue.eraseIdx i })
  | none => (none, st)

/-- The scan of `select_deadline_task`.  The source compares a synthetic
    `from_timestamp(now_sec − 60)` per entry against a pre-loop
    `Utc::now()` snapshot and never updates `earliest_time`, so the same
    boolean decides every tracked entry and `selected_index` ends on the
    last tracked pid when it holds. -/
def deadlineScan (procs : List (String × AgentProcess)) (cond : Bool) :
    List String → Nat → Option Nat → Option Nat
  | [], _, sel => sel
  | pid :: rest, i, sel =>
    match alookup pid procs with
    | some _ =>
      deadlineScan procs cond rest (i + 1) (if cond then some i else sel)
    | none => deadlineScan procs cond rest (i + 1) sel

/-- `AgentScheduler::select_deadline_task` (`nowMs` = wall clock in
    milliseconds; `created = now.timestamp() − 60` seconds). -/
def select_deadline_task (st : SchedulerState) (nowMs : Nat) :
    Option String × SchedulerState :=
  match deadlineScan st.processes
      (decide ((nowMs / 1000 - 60) * 1000 < nowMs)) st.ready_queue 0 none
    with
  | some i =>
    (st.ready_queue.get? i,
      { st with ready_queue := st.ready_queue.eraseIdx i })
  | none => (none, st)

/-- `AgentScheduler::select_next_task`. -/
def select_next_task (cfg : SchedulerConfig) (st : SchedulerState)
    (nowMs : Nat) : Option String × SchedulerState :=
  match cfg.policy with
  | SchedulingPolicy.Priority => select_priority_task st
  | SchedulingPolicy.RoundRobin => select_round_robin_task st
  | SchedulingPolicy.Fair => select_fair_task st
  | SchedulingPolicy.Deadline => select_deadline_task st nowMs

/-- `AgentScheduler::schedule`.  NOTE (faithful to the source): the
    selected process is fetched with `get_mut(&pid).cloned()` and
    `state = Running` is assigned to the returned *clone*; the process
    table keeps the old state. -/
def schedule (cfg : SchedulerConfig) (st : SchedulerState) (nowMs : Nat) :
    Option AgentProcess × SchedulerState :=
  let st1 := check_preemption cfg st
  match select_next_task cfg st1 nowMs with
  | (some pid, st2) =>
    match alookup pid st2.processes with
    | some process =>
      (some { process with state := AgentState.Running },
        { st2 with running_queue := st2.running_queue ++ [pid] })
    | none => (none, st2)
  | (none, st2) => (none, st2)

/-- `AgentScheduler::request_resources`. -/
def request_resources (cfg : SchedulerConfig) (st : SchedulerState)
    (pid : String) (tokens_needed : Nat) (now : Nat) :
    Bool × SchedulerState :=
  match alookup pid st.resource_usage with
  | some usage =>
    if usage.window_tokens + tokens_needed ≤ cfg.preemption_threshold then
      let usage' := aupdate pid (fun u =>
        { u with
            window_tokens := u.window_tokens + tokens_needed,
            total_tokens := u.total_tokens + tokens_needed,
            api_calls := u.api_calls + 1,
            last_active := now }) st.resource_usage
      (true, { st with resource_usage := usage' })
    else (false, st)
  | none => (false, st)

/-- `AgentScheduler::suspend_process` (`fresh` models the new Uuid). -/
def suspend_process (st : SchedulerState) (pid : String)
    (create_checkpoint : Bool) (fresh : Nat) :
    Option Nat × SchedulerState :=
  let can_suspend :=
    match alookup pid st.processes with
    | some p => decide (p.state = AgentState.Running) ||
        decide (p.state = AgentState.Ready)
    | none => false
  if can_suspend then
    let procs1 := aupdate pid
      (fun p => { p with state := AgentState.Suspended }) st.processes
    let st1 := { st with processes := procs1 }
    let st2 := { st1 with
      running_queue := st1.running_queue.filter (fun p => p ≠ pid),
      ready_queue := st1.ready_queue.filter (fun p => p ≠ pid) }
    let st3 := { st2 with waiting_queue := st2.waiting_queue.erase pid }
    let st4 := { st3 with waiting_queue := st3.waiting_queue ++ [pid] }
    if create_checkpoint then
      let procs5 := aupdate pid
        (fun p => { p with checkpoint_id := some fresh }) st4.processes
      (some fresh, { st4 with processes := procs5 })
    else (none, st4)
  else (none, st)

/-- `AgentScheduler::wait_process`: sets the state to Waiting and leaves
    every queue untouched (as the source does). -/
def wait_process (st : SchedulerState) (pid : String) : SchedulerState :=
  let procs' := aupdate pid
    (fun p => { p with state := AgentState.Waiting }) st.processes
  { st with processes := procs' }

/-- `AgentScheduler::terminate_process`. -/
def terminate_process (st : SchedulerState) (pid : String) :
    SchedulerState :=
  match alookup pid st.processes with
  | some _ =>
    let procs' := aupdate pid
      (fun p => { p with state := AgentState.Terminated }) st.processes
    { st with
        processes := procs',
        running_queue := st.running_queue.filter (fun p => p ≠ pid),
        ready_queue := st.ready_queue.filter (fun p => p ≠ pid),
        waiting_queue := st.waiting_queue.filter (fun p => p ≠ pid) }
  | none => st

/-- `AgentScheduler::resume_process`. -/
def resume_process (st : SchedulerState) (pid : String) : SchedulerState :=
  match alookup pid st.processes with
  | some p =>
    if p.state = AgentState.Suspended ∨ p.state = AgentState.Waiting then
      let procs' := aupdate pid
        (fun q => { q with state := AgentState.Ready }) st.processes
      { st with
          processes := procs',
          waiting_queue := st.waiting_queue.erase pid,
          ready_queue := st.ready_queue ++ [pid] }
    else st
  | none => st

/-- `AgentScheduler::clear_window_usage`. -/
def clear_window_usage (st : SchedulerState) : SchedulerState :=
  let usage' := st.resource_usage.map
    (fun e => (e.1, { e.2 with window_tokens := 0 }))
  { st with resource_usage := usage' }

/-- The priority of a ready pid as `select_priority_task` sees it: the
    table entry's priority, with untracked pids never selectable (same
    effect as priority 0 under the strict `>` scan). -/
def readyPrio (procs : List (String × AgentProcess)) (pid : String) : Nat :=
  match alookup pid procs with
  | some p => p.priority
  | none => 0

/-- Greatest `readyPrio` along a pid list (0 when empty). -/
def readyMax (procs : List (String × AgentProcess)) (l : List String) :
    Nat :=
  (l.map (readyPrio procs)).foldr max 0

/-- Greatest priority among the ready queue (0 when empty). -/
def maxReadyPrio (st : SchedulerState) : Nat :=
  readyMax st.processes st.ready_queue

/-- The default scheduler configuration (`Priority` policy, preemption
    threshold 10000). -/
def prioSchedCfg : SchedulerConfig :=
  { policy := SchedulingPolicy.Priority, default_time_slice := 5000
    max_pending_tasks := 100, scheduling_interval := 100
    preemption_threshold := 10000 }

/-- The two-process scenario of the spec's priority test: `hi` at
    priority 90, `lo` at priority 30. -/
def exSchedHiLo : SchedulerState :=
  add_process
    (add_process initSched (AgentProcess.mk_new "hi" "High Priority" 90) 0)
    (AgentProcess.mk_new "lo" "Low Priority" 30) 1

/-! ## Security sandbox (`core/security.rs`) -/

/-- `PermissionLevel` in `core/types.rs`. -/
inductive PermissionLevel
  | Restricted
  | Standard
  | Unrestricted
deriving DecidableEq

/-- `FilePermission`. -/
inductive FilePermission
  | None
  | Read
  | ReadWrite
  | All
deriving DecidableEq

/-- `FilePermission::can_read`. -/
def FilePermission.can_read : FilePermission → Bool
  | FilePermission.Read => true
  | FilePermission.ReadWrite => true
  | FilePermission.All => true
  | FilePermission.None => false

/-- `FilePermission::can_write`. -/
def FilePermission.can_write : FilePermission → Bool
  | FilePermission.ReadWrite => true
  | FilePermission.All => true
  | _ => false

/-- `FilePermission::can_execute`. -/
def FilePermission.can_execute (p : FilePermission) : Bool :=
  p = FilePermission.All

/-- `SecurityOperation`. -/
inductive SecurityOperation
  | NetworkAccess (address : String)
  | FileAccess (path : String)
  | SystemCall (syscall : String)
deriving DecidableEq

/-- `SecurityViolationType`. -/
inductive SecurityViolationType
  | PathAccess
  | NetworkAccess
  | SystemCall
  | ResourceLimit
  | SandboxEscape
deriving DecidableEq

/-- `SecuritySeverity`. -/
inductive SecuritySeverity
  | Low
  | Medium
  | High
  | Critical
deriving DecidableEq

/-- `SecurityViolation`. -/
structure SecurityViolation where
  violation_type : SecurityViolationType
  message : String
  severity : SecuritySeverity
deriving DecidableEq

/-- `SecurityPolicy` in `core/security.rs`. -/
structure SecurityPolicy where
  level : PermissionLevel
  allow_network : Bool
  allow_filesystem : Bool
  allow_syscalls : Bool
  filesystem_permissions : List (String × FilePermission)
  allowed_network_addresses : List String
deriving DecidableEq

/-- `SecurityPolicy::default`. -/
def SecurityPolicy.mk_default : SecurityPolicy :=
  { level := PermissionLevel.Standard
    allow_network := true
    allow_filesystem := true
    allow_syscalls := false
    filesystem_permissions :=
      [("/workspace", FilePermission.ReadWrite),
        ("/tmp", FilePermission.ReadWrite)]
    allowed_network_addresses := [] }

/-- `SecurityPolicy::check_path_permission`.
    `Path::new(path).to_str().unwrap_or(path)` is the identity on valid
    UTF-8, so normalization is dropped.  The loop returns Ok on the
    first prefix whose permission can read, else a Medium violation. -/
def check_path_permission (pol : SecurityPolicy) (path : String) :
    Except SecurityViolation Unit :=
  if pol.filesystem_permissions.any
      (fun e => path.startsWith e.1 && e.2.can_read) then
    Except.ok ()
  else
    Except.error
      { violation_type := SecurityViolationType.PathAccess
        message := "Path '" ++ path ++ "' is not allowed"
        severity := SecuritySeverity.Medium }

/-- `SecurityPolicy::check_standard_permission`. -/
def check_standard_permission (pol : SecurityPolicy)
    (operation : SecurityOperation) : Except SecurityViolation Unit :=
  match operation with
  | SecurityOperation.NetworkAccess address =>
    if pol.allow_network then Except.ok ()
    else
      Except.error
        { violation_type := SecurityViolationType.NetworkAccess
          message := "Network access to '" ++ address ++
            "' is not allowed in standard mode"
          severity := SecuritySeverity.Medium }
  | SecurityOperation.FileAccess path =>
    if pol.allow_filesystem then check_path_permission pol path
    else
      Except.error
        { violation_type := SecurityViolationType.PathAccess
          message := "File system access to '" ++ path ++
            "' is not allowed in standard mode"
          severity := SecuritySeverity.High }
  | SecurityOperation.SystemCall syscall =>
    if pol.allow_syscalls then Except.ok ()
    else
      Except.error
        { violation_type := SecurityViolationType.SystemCall
          message := "System call '" ++ syscall ++
            "' is not allowed in standard mode"
          severity := SecuritySeverity.High }

/-- `SecurityPolicy::check_restricted_permission`: always a Critical
    violation whose kind mirrors the operation. -/
def check_restricted_permission (pol : SecurityPolicy)
    (operation : SecurityOperation) : Except SecurityViolation Unit :=
  let vt :=
    match operation with
    | SecurityOperation.NetworkAccess _ =>
      SecurityViolationType.NetworkAccess
    | SecurityOperation.FileAccess _ => SecurityViolationType.PathAccess
    | SecurityOperation.SystemCall _ => SecurityViolationType.SystemCall
  Except.error
    { violation_type := vt
      message := "All operations are blocked in restricted mode"
      severity := SecuritySeverity.Critical }

/-- `SecurityPolicy::check_permission`. -/
def SecurityPolicy.check_permission (pol : SecurityPolicy)
    (operation : SecurityOperation) : Except SecurityViolation Unit :=
  match pol.level with
  | PermissionLevel.Unrestricted => Except.ok ()
  | PermissionLevel.Standard => check_standard_permission pol operation
  | PermissionLevel.Restricted => check_restricted_permission pol operation

/-- `SandboxConfig`. -/
structure SandboxConfig where
  policy : SecurityPolicy
deriving DecidableEq

/-- `AuditLogEntry` in `core/types.rs`.  The two `serde_json::Value`
    payloads are modelled as the strings the source formats into them
    (the operation's Debug text, the violation message). -/
structure AuditLogEntry where
  timestamp : Nat
  agent_pid : String
  action_type : String
  input_data : String
  output_data : String
  reasoning : Option String
  duration_ms : Nat
deriving DecidableEq

/-- `format!("{:?}", operation)` for the derived Debug instance. -/
def opDebug (operation : SecurityOperation) : String :=
  match operation with
  | SecurityOperation.NetworkAccess a => "NetworkAccess(\"" ++ a ++ "\")"
  | SecurityOperation.FileAccess p => "FileAccess(\"" ++ p ++ "\")"
  | SecurityOperation.SystemCall s => "SystemCall(\"" ++ s ++ "\")"

/-- The `action_type` tag chosen by `log_audit`. -/
def opActionType (operation : SecurityOperation) : String :=
  match operation with
  | SecurityOperation.NetworkAccess _ => "network_access"
  | SecurityOperation.FileAccess _ => "file_access"
  | SecurityOperation.SystemCall _ => "system_call"

/-- The state behind the `SandboxManager` locks. -/
structure SandboxManagerState where
  sandboxes : List (String × SandboxConfig)
  audit_log : List AuditLogEntry
deriving DecidableEq

/-- `SandboxManager::new`. -/
def initSandboxManager : SandboxManagerState :=
  { sandboxes := [], audit_log := [] }

/-- `SandboxManager::create_sandbox`. -/
def create_sandbox (st : SandboxManagerState) (pid : String)
    (policy : SecurityPolicy) : SandboxManagerState :=
  { st with sandboxes := ainsert pid { policy := policy } st.sandboxes }

/-- `SandboxManager::log_audit`. -/
def log_audit (st : SandboxManagerState) (pid : String)
    (operation : SecurityOperation) (violation : SecurityViolation)
    (now : Nat) : SandboxManagerState :=
  let entry : AuditLogEntry :=
    { timestamp := now
      agent_pid := pid
      action_type := "security_violation:" ++ opActionType operation
      input_data := opDebug operation
      output_data := violation.message
      reasoning := none
      duration_ms := 0 }
  { st with audit_log := st.audit_log ++ [entry] }

/-- `SandboxManager::check_operation`: consult the pid's sandbox when
    registered (logging any violation); allow silently otherwise. -/
def check_operation (st : SandboxManagerState) (pid : String)
    (operation : SecurityOperation) (now : Nat) :
    Except SecurityViolation Unit × SandboxManagerState :=
  match alookup pid st.sandboxes with
  | some sandbox =>
    match sandbox.policy.check_permission operation with
    | Except.ok _ => (Except.ok (), st)
    | Except.error violation =>
      (Except.error violation, log_audit st pid operation violation now)
  | none => (Except.ok (), st)

/-- The policy built by
    `SecurityPolicy::builder().permission_level(Restricted).build()`:
    `build` forces all three toggles off for Restricted and keeps the
    default path permissions. -/
def exRestrictedPolicy : SecurityPolicy :=
  { SecurityPolicy.mk_default with
      level := PermissionLevel.Restricted
      allow_network := false
      allow_filesystem := false
      allow_syscalls := false }

/-- A manager with one Restricted sandbox registered. -/
def exSandboxMgr : SandboxManagerState :=
  create_sandbox initSandboxManager "test-sandbox-1" exRestrictedPolicy

end AgentOS

namespace AgentOS

theorem alookup_ainsert {κ α : Type} [DecidableEq κ] (k : κ) (v : α)
    (l : List (κ × α)) : alookup k (ainsert k v l) = some v := by
  simp [alookup, ainsert]

theorem aupdate_cons {κ α : Type} [DecidableEq κ] (k : κ) (f : α → α)
    (e : κ × α) (rest : List (κ × α)) :
    aupdate k f (e :: rest) =
      (if e.1 = k then (e.1, f e.2) else e) :: aupdate k f rest := rfl

theorem alookup_aupdate {κ α : Type} [DecidableEq κ] (k : κ) (f : α → α)
    (l : List (κ × α)) :
    alookup k (aupdate k f l) = (alookup k l).map f := by
  induction l with
  | nil => simp [alookup, aupdate]
  | cons e rest ih =>
    rw [aupdate_cons]
    by_cases h : e.1 = k
    · rw [if_pos h]
      simp [alookup, h]
    · rw [if_neg h]
      simp [alookup, h, ih]

theorem alookup_cons {κ α : Type} [DecidableEq κ] (k k' : κ) (v : α)
    (l : List (κ × α)) :
    alookup k ((k', v) :: l) = if k' = k then some v else alookup k l := rfl

theorem filter_ne_cons {κ α : Type} [DecidableEq κ] (j : κ) (e : κ × α)
    (rest : List (κ × α)) :
    (e :: rest).filter (fun x => x.1 ≠ j) =
      if e.1 = j then rest.filter (fun x => x.1 ≠ j)
      else e :: rest.filter (fun x => x.1 ≠ j) := by
  by_cases h : e.1 = j <;> simp [List.filter_cons, h]

theorem alookup_filter_ne {κ α : Type} [DecidableEq κ] (k j : κ)
    (l : List (κ × α)) (hkj : k ≠ j) :
    alookup k (l.filter (fun e => e.1 ≠ j)) = alookup k l := by
  induction l with
  | nil => rfl
  | cons e rest ih =>
    rw [filter_ne_cons]
    by_cases hj : e.1 = j
    · have h : e.1 ≠ k := fun he => hkj (he.symm.trans hj)
      rw [if_pos hj, ih]
      obtain ⟨k', v⟩ := e
      rw [alookup_cons, if_neg h]
    · rw [if_neg hj]
      obtain ⟨k', v⟩ := e
      rw [alookup_cons, alookup_cons, ih]

theorem sortInsert_perm {α : Type} (cmp : α → α → Ordering) (x : α)
    (l : List α) : (sortInsert cmp x l).Perm (x :: l) := by
  induction l with
  | nil => simp [sortInsert]
  | cons y ys ih =>
    by_cases h : cmp y x = Ordering.gt
    · simp [sortInsert, h]
    · simp only [sortInsert, h, if_false]
      exact ((ih.cons y).trans (List.Perm.swap x y ys))

theorem sortByCmp_aux_perm {α : Type} (cmp : α → α → Ordering)
    (l acc : List α) :
    (l.foldl (fun acc x => sortInsert cmp x acc) acc).Perm (acc ++ l) := by
  induction l generalizing acc with
  | nil => simp
  | cons x xs ih =>
    have h2 : (sortInsert cmp x acc ++ xs).Perm (acc ++ x :: xs) := by
      have hx : (sortInsert cmp x acc).Perm (x :: acc) := sortInsert_perm cmp x acc
      have h3 : (sortInsert cmp x acc ++ xs).Perm (x :: (acc ++ xs)) :=
        hx.append_right xs
      exact h3.trans List.perm_middle.symm
    simpa only [List.foldl_cons] using (ih (sortInsert cmp x acc)).trans h2

theorem sortByCmp_perm {α : Type} (cmp : α → α → Ordering) (l : List α) :
    (sortByCmp cmp l).Perm l := by
  simpa using sortByCmp_aux_perm cmp l []

theorem mem_sortByCmp {α : Type} (cmp : α → α → Ordering) {x : α}
    {l : List α} (h : x ∈ l) : x ∈ sortByCmp cmp l :=
  ((sortByCmp_perm cmp l).mem_iff).2 h

/-- Claim C5: for every UTF-8 string `s`, `estimate_tokens(s)` equals
    `cjk/2 + (byte_length(s) − cjk)/4 + 1` with integer division, where
    `cjk` counts scalar values in `0x4E00..=0x9FFF`; the context-manager
    and kernel copies of the function are the same function (hence the
    result depends only on `s`). -/
theorem estimate_tokens_bit_exact :
    (∀ s : List Char, estimateTokensContext s = specTokens s) ∧
      estimateTokensKernel = estimateTokensContext := by
  constructor
  · intro s; rfl
  · rfl

/-- Claim C2 (code bug in `access_page`): allocating one 11-token page
    under a 10-token cap evicts it (`token_usage` drops to 0); the
    subsequent `access_page` page-fault moves the page back into the
    resident tier but never re-adds its `token_count`, so afterwards
    `token_usage = 0` while the resident tier holds 11 tokens — the
    invariant `token_usage = Σ token_count over resident pages` is
    broken by the fault path. -/
theorem token_usage_fault_divergence :
    ((access_page exCtxCfg
        (allocate_page exCtxCfg initCtx "a" exBig 1 PageType.User 1).2
        0 2).2.token_usage = 0) ∧
      pageTokenSum ((access_page exCtxCfg
        (allocate_page exCtxCfg initCtx "a" exBig 1 PageType.User 1).2
        0 2).2.resident.map Prod.snd) = 11 := by decide

/-- Claim C3, counterexample: a reachable state on which the assembled
    context exceeds `max_context_tokens`.  Sequence (cap 10): allocate a
    2-token page (id 0), allocate a 9-token page (id 1) — this evicts
    id 0 — fault id 0 back in, allocate a 2-token page (id 2) — this
    evicts id 0 again, double-subtracting its tokens.  Now the agent's
    indexed pages hold 11 tokens while `token_usage = 9`, and assembly
    returns messages totalling 11 > 10: the overflowing page is pushed
    before the loop breaks. -/
theorem assembly_cap_counterexample :
    exCtxCfg.max_context_tokens <
      pageTokenSum (includedPages exCtxCfg
        (allocate_page exCtxCfg
          (access_page exCtxCfg
            (allocate_page exCtxCfg
              (allocate_page exCtxCfg initCtx "a" exSmallA 1
                PageType.User 1).2
              "a" exMidB 1 PageType.User 2).2
            0 3).2
          "a" exSmallC 1 PageType.Working 4).2
        "a" false) := by decide

theorem dropLast_cons_cons {α : Type} (a b : α) (l : List α) :
    (a :: b :: l).dropLast = a :: (b :: l).dropLast := rfl

/-- Everything the accumulation loop returns except its last element
    fits under the cap (the last element is the one that may cross it). -/
theorem takeLoop_dropLast_sum (cap : Nat) :
    ∀ (l : List ContextPage) (t : Nat), t ≤ cap →
      t + pageTokenSum (takeLoop cap l t).dropLast ≤ cap := by
  intro l
  induction l with
  | nil => intro t ht; simpa [takeLoop, pageTokenSum]
  | cons p rest ih =>
    intro t ht
    by_cases h : cap < t + p.token_count
    · simp [takeLoop, h, pageTokenSum]; exact ht
    · have ht' : t + p.token_count ≤ cap := Nat.le_of_not_lt h
      have hrec := ih (t + p.token_count) ht'
      rw [takeLoop, if_neg h]
      cases hr : takeLoop cap rest (t + p.token_count) with
      | nil => simpa [pageTokenSum]
      | cons q qs =>
        rw [hr] at hrec
        rw [dropLast_cons_cons]
        simp only [pageTokenSum, List.map_cons, List.sum_cons] at hrec ⊢
        omega

/-- Claim C3, amended: for every call to `get_agent_context`, the sum of
    `token_count` over the pages mapped into the returned message
    sequence, excluding the final message, is at most
    `max_context_tokens`; accumulation stops immediately after the first
    page that brings the total over the cap, so only the last returned
    message can overflow it. -/
theorem assembly_cap_amended (cfg : ContextConfig) (st : ContextState)
    (pid : String) (optimize_for_cache : Bool) :
    pageTokenSum (includedPages cfg st pid optimize_for_cache).dropLast ≤
      cfg.max_context_tokens := by
  have := takeLoop_dropLast_sum cfg.max_context_tokens
    (if optimize_for_cache then sortByCmp cacheOrderCmp (collectPages st pid)
     else sortByCmp createdOrderCmp (collectPages st pid)) 0
    (Nat.zero_le _)
  simpa [includedPages] using this

/-! ## Lemmas about allocation, eviction and assembly (claim C4) -/

theorem alookup_aupdate_ne {κ α : Type} [DecidableEq κ] {k j : κ}
    (hne : j ≠ k) (f : α → α) (l : List (κ × α)) :
    alookup k (aupdate j f l) = alookup k l := by
  induction l with
  | nil => rfl
  | cons e rest ih =>
    rw [aupdate_cons]
    by_cases h : e.1 = j
    · rw [if_pos h]
      obtain ⟨k', v⟩ := e
      simp only at h
      subst h
      rw [alookup_cons, alookup_cons, if_neg hne, if_neg hne, ih]
    · rw [if_neg h]
      obtain ⟨k', v⟩ := e
      rw [alookup_cons, alookup_cons, ih]

theorem mem_keys_filter_ne {κ α : Type} [DecidableEq κ]
    {l : List (κ × α)} {k j : κ}
    (h : k ∈ (l.filter (fun e => e.1 ≠ j)).map Prod.fst) :
    k ≠ j ∧ k ∈ l.map Prod.fst := by
  obtain ⟨e, he, hek⟩ := List.mem_map.1 h
  have hf := List.mem_filter.1 he
  have hej : e.1 ≠ j := by simpa using hf.2
  exact ⟨hek ▸ hej, List.mem_map.2 ⟨e, hf.1, hek⟩⟩

theorem cacheCapacity_pos (cfg : ContextConfig) : 1 ≤ cacheCapacity cfg := by
  unfold cacheCapacity
  by_cases h : cfg.max_context_tokens / cfg.page_size * 2 = 0
  · simp [h]
  · simp only [h, if_false]
    omega

/-- After `LruCache::put`, the just-put key is bound to the just-put
    value (the capacity drop removes only the LRU tail). -/
theorem alookup_lruPut (cap : Nat) (m : List (Nat × ContextPage))
    (k : Nat) (v : ContextPage) (hcap : 1 ≤ cap) :
    alookup k (lruPut cap m k v) = some v := by
  simp only [lruPut]
  cases hf : m.filter (fun e => e.1 ≠ k) with
  | nil =>
    have : ¬ cap < ([(k, v)] : List (Nat × ContextPage)).length := by
      simp; omega
    rw [if_neg this, alookup_cons, if_pos rfl]
  | cons e es =>
    by_cases h : cap < ((k, v) :: e :: es).length
    · rw [if_pos h, dropLast_cons_cons, alookup_cons, if_pos rfl]
    · rw [if_neg h, alookup_cons, if_pos rfl]

/-- The eviction loop only removes resident entries: a key still
    resident afterwards was resident before, with the same page. -/
theorem evictLoop_resident_stable (cfg : ContextConfig) :
    ∀ (pages : List (Nat × ContextPage)) (st : ContextState) (k : Nat),
      k ∈ ((evictLoop cfg pages st).2).resident.map Prod.fst →
      k ∈ st.resident.map Prod.fst ∧
        alookup k ((evictLoop cfg pages st).2).resident =
          alookup k st.resident := by
  intro pages
  induction pages with
  | nil =>
    intro st k hk
    refine ⟨hk, ?_⟩
    rfl
  | cons e rest ih =>
    intro st k hk
    obtain ⟨j, pg⟩ := e
    by_cases h : cfg.max_context_tokens * 90 / 100 < st.token_usage
    · simp only [evictLoop, if_pos h] at hk ⊢
      obtain ⟨hk1, hk2⟩ := ih (evictOne st j pg) k hk
      have hk1' : k ∈ (st.resident.filter (fun e => e.1 ≠ j)).map Prod.fst :=
        hk1
      obtain ⟨hkj, hmem⟩ := mem_keys_filter_ne hk1'
      refine ⟨hmem, ?_⟩
      rw [hk2]
      exact alookup_filter_ne k j st.resident hkj
    · simp only [evictLoop, if_neg h] at hk ⊢
      exact ⟨hk, trivial⟩

/-- The eviction loop removes an id from a per-agent index only when it
    evicts that page; an id that stays resident stays indexed. -/
theorem evictLoop_index_mem (cfg : ContextConfig) :
    ∀ (pages : List (Nat × ContextPage)) (st : ContextState) (k : Nat)
      (pid : String),
      k ∈ ((evictLoop cfg pages st).2).resident.map Prod.fst →
      k ∈ indexIds st pid →
      k ∈ indexIds ((evictLoop cfg pages st).2) pid := by
  intro pages
  induction pages with
  | nil => intro st k pid _ hx; exact hx
  | cons e rest ih =>
    intro st k pid hk hx
    obtain ⟨j, pg⟩ := e
    by_cases h : cfg.max_context_tokens * 90 / 100 < st.token_usage
    · simp only [evictLoop, if_pos h] at hk ⊢
      have hres := (evictLoop_resident_stable cfg rest (evictOne st j pg)
        k hk).1
      have hkj : k ≠ j := (mem_keys_filter_ne hres).1
      refine ih (evictOne st j pg) k pid hk ?_
      show k ∈ indexIds (evictOne st j pg) pid
      unfold indexIds at hx ⊢
      simp only [evictOne]
      by_cases hpid : pg.agent_pid = pid
      · subst hpid
        rw [alookup_aupdate]
        cases hl : alookup pg.agent_pid st.agent_pages with
        | none => rw [hl] at hx; simp at hx
        | some ids =>
          rw [hl] at hx
          simp only [Option.getD_some] at hx
          simpa using (List.mem_erase_of_ne hkj).2 hx
      · rw [alookup_aupdate_ne hpid]
        exact hx
    · simp only [evictLoop, if_neg h] at hk ⊢
      exact hx

/-- If the whole list fits under the cap, the accumulation loop keeps
    everything. -/
theorem takeLoop_all (cap : Nat) :
    ∀ (l : List ContextPage) (t : Nat), t + pageTokenSum l ≤ cap →
      takeLoop cap l t = l := by
  intro l
  induction l with
  | nil => intro t _; rfl
  | cons p rest ih =>
    intro t ht
    simp only [pageTokenSum, List.map_cons, List.sum_cons] at ht
    have h : ¬ cap < t + p.token_count := by omega
    rw [takeLoop, if_neg h, ih (t + p.token_count) (by
      simp only [pageTokenSum]; omega)]

theorem pageTokenSum_perm {l l' : List ContextPage} (h : l.Perm l') :
    pageTokenSum l = pageTokenSum l' :=
  (h.map ContextPage.token_count).sum_eq

/-- An indexed id whose page is resident contributes that page to the
    collection phase of `get_agent_context`. -/
theorem mem_collectPages {st : ContextState} {pid : String} {k : Nat}
    {p : ContextPage} (hk : k ∈ indexIds st pid)
    (hp : alookup k st.resident = some p) : p ∈ collectPages st pid := by
  unfold indexIds at hk
  unfold collectPages
  cases hl : alookup pid st.agent_pages with
  | none => rw [hl] at hk; simp at hk
  | some ids =>
    rw [hl] at hk
    simp only [Option.getD_some] at hk
    exact List.mem_filterMap.2 ⟨k, hk, by simp [hp, Option.orElse]⟩

/-- A collected page whose agent's collection fits under the cap is
    included in the assembled context. -/
theorem mem_includedPages {cfg : ContextConfig} {st : ContextState}
    {pid : String} {p : ContextPage} (b : Bool)
    (hp : p ∈ collectPages st pid)
    (hcap : pageTokenSum (collectPages st pid) ≤ cfg.max_context_tokens) :
    p ∈ includedPages cfg st pid b := by
  unfold includedPages
  cases b with
  | false =>
    have hperm := sortByCmp_perm createdOrderCmp (collectPages st pid)
    have hsum : pageTokenSum (sortByCmp createdOrderCmp
        (collectPages st pid)) ≤ cfg.max_context_tokens := by
      rw [pageTokenSum_perm hperm]; exact hcap
    simp only [Bool.false_eq_true, if_false]
    rw [takeLoop_all cfg.max_context_tokens _ 0 (by simpa using hsum)]
    exact hperm.mem_iff.2 hp
  | true =>
    have hperm := sortByCmp_perm cacheOrderCmp (collectPages st pid)
    have hsum : pageTokenSum (sortByCmp cacheOrderCmp
        (collectPages st pid)) ≤ cfg.max_context_tokens := by
      rw [pageTokenSum_perm hperm]; exact hcap
    simp only [if_true]
    rw [takeLoop_all cfg.max_context_tokens _ 0 (by simpa using hsum)]
    exact hperm.mem_iff.2 hp

theorem allocStaged_resident (cfg : ContextConfig) (st : ContextState)
    (pid : String) (content : List Char) (importance : Rat)
    (page_type : PageType) (now : Nat) :
    alookup st.next_id
        (allocStaged cfg st pid content importance page_type now).resident =
      some (allocFreshPage st pid content importance page_type now) :=
  alookup_lruPut (cacheCapacity cfg) st.resident st.next_id
    (allocFreshPage st pid content importance page_type now)
    (cacheCapacity_pos cfg)

theorem allocStaged_index (cfg : ContextConfig) (st : ContextState)
    (pid : String) (content : List Char) (importance : Rat)
    (page_type : PageType) (now : Nat) :
    st.next_id ∈
      indexIds (allocStaged cfg st pid content importance page_type now)
        pid := by
  unfold indexIds allocStaged indexPush
  cases hl : alookup pid st.agent_pages with
  | none =>
    simp [hl, alookup_ainsert, allocFreshPage, ContextPage.mk_new]
  | some ids =>
    simp [hl, alookup_aupdate, allocFreshPage, ContextPage.mk_new]

/-- Claim C4, amended: if the page created by `allocate_page` is still
    resident after the call returns (the eviction that the allocation may
    trigger did not claim it), then the per-agent index for `pid`
    contains the fresh id; if moreover the pages collected for `pid` in
    the post-state fit inside `max_context_tokens`, then
    `get_agent_context(pid, _)` includes the page's content at least
    once. -/
theorem allocate_page_visible (cfg : ContextConfig) (st : ContextState)
    (pid : String) (content : List Char) (importance : Rat)
    (page_type : PageType) (now : Nat) (b : Bool) (mnow : Nat)
    (i : Nat) (st' : ContextState)
    (halloc : allocate_page cfg st pid content importance page_type now =
      (i, st'))
    (hres : i ∈ st'.resident.map Prod.fst) :
    i ∈ indexIds st' pid ∧
      (pageTokenSum (collectPages st' pid) ≤ cfg.max_context_tokens →
        ∃ m ∈ get_agent_context cfg st' pid b mnow, m.content = content) := by
  simp only [allocate_page] at halloc
  by_cases hev : cfg.max_context_tokens <
      (allocStaged cfg st pid content importance page_type now).token_usage
  · rw [if_pos hev] at halloc
    injection halloc with hi hst
    have hi' : st.next_id = i := hi
    subst hst
    subst hi'
    simp only [evict_pages] at hres ⊢
    have hstab := evictLoop_resident_stable cfg
      (sortByCmp (evictCmp cfg.page_replacement_policy)
        (allocStaged cfg st pid content importance page_type now).resident)
      (allocStaged cfg st pid content importance page_type now)
      st.next_id hres
    have hlook := hstab.2.trans
      (allocStaged_resident cfg st pid content importance page_type now)
    have hidx := evictLoop_index_mem cfg
      (sortByCmp (evictCmp cfg.page_replacement_policy)
        (allocStaged cfg st pid content importance page_type now).resident)
      (allocStaged cfg st pid content importance page_type now)
      st.next_id pid hres
      (allocStaged_index cfg st pid content importance page_type now)
    refine ⟨hidx, fun hcap => ?_⟩
    have hcol := mem_collectPages hidx hlook
    have hinc := mem_includedPages b hcol hcap
    refine ⟨⟨roleOf (allocFreshPage st pid content importance page_type
      now).page_type, content, mnow⟩, ?_, rfl⟩
    unfold get_agent_context
    exact List.mem_map.2 ⟨allocFreshPage st pid content importance
      page_type now, hinc, rfl⟩
  · rw [if_neg hev] at halloc
    injection halloc with hi hst
    have hi' : st.next_id = i := hi
    subst hst
    subst hi'
    have hlook := allocStaged_resident cfg st pid content importance
      page_type now
    have hidx := allocStaged_index cfg st pid content importance page_type
      now
    refine ⟨hidx, fun hcap => ?_⟩
    have hcol := mem_collectPages hidx hlook
    have hinc := mem_includedPages b hcol hcap
    refine ⟨⟨roleOf (allocFreshPage st pid content importance page_type
      now).page_type, content, mnow⟩, ?_, rfl⟩
    unfold get_agent_context
    exact List.mem_map.2 ⟨allocFreshPage st pid content importance
      page_type now, hinc, rfl⟩

/-- Claim C4, counterexample: with `max_context_tokens = 10`, allocating
    a single 11-token page triggers an eviction that swaps out that very
    page and removes its id from the per-agent index; the index entry is
    then empty and `get_agent_context` returns no messages at all, so
    the unamended claim fails. -/
theorem alloc_eviction_counterexample :
    ¬ ((allocate_page exCtxCfg initCtx "a" exBig 1 PageType.User 1).1 ∈
        indexIds
          (allocate_page exCtxCfg initCtx "a" exBig 1 PageType.User 1).2
          "a") ∧
      get_agent_context exCtxCfg
        (allocate_page exCtxCfg initCtx "a" exBig 1 PageType.User 1).2
        "a" true 2 = [] := by decide

/-! ## Tier-ownership and status invariants (claim C8) -/

theorem alookup_mem {κ α : Type} [DecidableEq κ] {k : κ} {v : α} :
    ∀ {l : List (κ × α)}, alookup k l = some v → (k, v) ∈ l := by
  intro l
  induction l with
  | nil => intro h; exact absurd h (by simp [alookup])
  | cons e rest ih =>
    intro h
    obtain ⟨k', v'⟩ := e
    rw [alookup_cons] at h
    by_cases hk : k' = k
    · rw [if_pos hk] at h
      subst hk
      obtain rfl : v' = v := Option.some.inj h
      exact List.mem_cons_self _ _
    · rw [if_neg hk] at h
      exact List.mem_cons_of_mem _ (ih h)

theorem mem_lruPut {cap : Nat} {m : List (Nat × ContextPage)} {k : Nat}
    {v : ContextPage} {e : Nat × ContextPage} (h : e ∈ lruPut cap m k v) :
    e = (k, v) ∨ e ∈ m := by
  simp only [lruPut] at h
  by_cases hc : cap < ((k, v) :: m.filter (fun e => e.1 ≠ k)).length
  · rw [if_pos hc] at h
    have h' := (List.dropLast_prefix _).subset h
    rcases List.mem_cons.1 h' with h1 | h2
    · exact Or.inl h1
    · exact Or.inr (List.mem_of_mem_filter h2)
  · rw [if_neg hc] at h
    rcases List.mem_cons.1 h with h1 | h2
    · exact Or.inl h1
    · exact Or.inr (List.mem_of_mem_filter h2)

theorem keys_lruPut {cap : Nat} {m : List (Nat × ContextPage)} {k k' : Nat}
    {v : ContextPage} (h : k' ∈ (lruPut cap m k v).map Prod.fst) :
    k' = k ∨ k' ∈ m.map Prod.fst := by
  obtain ⟨e, he, hek⟩ := List.mem_map.1 h
  rcases mem_lruPut he with h1 | h2
  · left; rw [← hek, h1]
  · right; exact List.mem_map.2 ⟨e, h2, hek⟩

theorem keys_ainsert {κ α : Type} [DecidableEq κ] {k k' : κ} {v : α}
    {l : List (κ × α)} (h : k' ∈ (ainsert k v l).map Prod.fst) :
    k' = k ∨ k' ∈ l.map Prod.fst := by
  rcases List.mem_map.1 h with ⟨e, he, hek⟩
  rcases List.mem_cons.1 he with h1 | h2
  · left; rw [← hek, h1]
  · right; exact List.mem_map.2 ⟨e, List.mem_of_mem_filter h2, hek⟩

theorem evictOne_WF {st : ContextState} {j : Nat} {pg : ContextPage}
    (hwf : ctxWF st) (hj : j < st.next_id) : ctxWF (evictOne st j pg) := by
  have hd := hwf.1
  have hbr := hwf.2.1
  have hbs := hwf.2.2
  refine ⟨?_, ?_, ?_⟩
  · intro k hk hks
    obtain ⟨hkj, hkm⟩ := mem_keys_filter_ne hk
    rcases keys_ainsert hks with h1 | h2
    · exact hkj h1
    · exact hd k hkm h2
  · intro k hk
    exact hbr k (mem_keys_filter_ne hk).2
  · intro k hk
    rcases keys_ainsert hk with h1 | h2
    · rw [h1]; exact hj
    · exact hbs k h2

theorem evictOne_status {st : ContextState} {j : Nat} {pg : ContextPage}
    (hst : statusAllInMemory st) (hpg : pg.status = PageStatus.InMemory) :
    statusAllInMemory (evictOne st j pg) := by
  refine ⟨?_, ?_⟩
  · intro e he
    exact hst.1 e (List.mem_of_mem_filter he)
  · intro e he
    rcases List.mem_cons.1 he with h1 | h2
    · rw [h1]; exact hpg
    · exact hst.2 e (List.mem_of_mem_filter h2)

theorem evictLoop_WF (cfg : ContextConfig) :
    ∀ (pages : List (Nat × ContextPage)) (st : ContextState),
      ctxWF st → (∀ e ∈ pages, e.1 < st.next_id) →
      ctxWF (evictLoop cfg pages st).2 := by
  intro pages
  induction pages with
  | nil => intro st hwf _; exact hwf
  | cons e rest ih =>
    intro st hwf hb
    obtain ⟨j, pg⟩ := e
    by_cases h : cfg.max_context_tokens * 90 / 100 < st.token_usage
    · simp only [evictLoop, if_pos h]
      refine ih (evictOne st j pg)
        (evictOne_WF hwf (hb (j, pg) (List.mem_cons_self _ _))) ?_
      intro e he
      exact hb e (List.mem_cons_of_mem _ he)
    · simp only [evictLoop, if_neg h]
      exact hwf

theorem evictLoop_status (cfg : ContextConfig) :
    ∀ (pages : List (Nat × ContextPage)) (st : ContextState),
      statusAllInMemory st →
      (∀ e ∈ pages, (Prod.snd e).status = PageStatus.InMemory) →
      statusAllInMemory (evictLoop cfg pages st).2 := by
  intro pages
  induction pages with
  | nil => intro st hst _; exact hst
  | cons e rest ih =>
    intro st hst hb
    obtain ⟨j, pg⟩ := e
    by_cases h : cfg.max_context_tokens * 90 / 100 < st.token_usage
    · simp only [evictLoop, if_pos h]
      refine ih (evictOne st j pg)
        (evictOne_status hst (hb (j, pg) (List.mem_cons_self _ _))) ?_
      intro e he
      exact hb e (List.mem_cons_of_mem _ he)
    · simp only [evictLoop, if_neg h]
      exact hst

theorem evict_pages_WF (cfg : ContextConfig) (st : ContextState)
    (hwf : ctxWF st) : ctxWF (evict_pages cfg st).2 := by
  refine evictLoop_WF cfg _ st hwf ?_
  intro e he
  have hm : e ∈ st.resident :=
    (sortByCmp_perm (evictCmp cfg.page_replacement_policy)
      st.resident).subset he
  exact hwf.2.1 e.1 (List.mem_map.2 ⟨e, hm, rfl⟩)

theorem evict_pages_status (cfg : ContextConfig) (st : ContextState)
    (hst : statusAllInMemory st) : statusAllInMemory (evict_pages cfg st).2 := by
  refine evictLoop_status cfg _ st hst ?_
  intro e he
  have hm : e ∈ st.resident :=
    (sortByCmp_perm (evictCmp cfg.page_replacement_policy)
      st.resident).subset he
  exact hst.1 e hm

theorem allocStaged_WF (cfg : ContextConfig) (st : ContextState)
    (pid : String) (content : List Char) (importance : Rat)
    (page_type : PageType) (now : Nat) (hwf : ctxWF st) :
    ctxWF (allocStaged cfg st pid content importance page_type now) := by
  have hd := hwf.1
  have hbr := hwf.2.1
  have hbs := hwf.2.2
  refine ⟨?_, ?_, ?_⟩
  · intro k hk hks
    rcases keys_lruPut hk with h1 | h2
    · exact absurd hks (h1 ▸ fun hc => Nat.lt_irrefl _ (hbs _ hc))
    · exact hd k h2 hks
  · intro k hk
    rcases keys_lruPut hk with h1 | h2
    · rw [h1]; exact Nat.lt_succ_self _
    · exact Nat.lt_succ_of_lt (hbr k h2)
  · intro k hk
    exact Nat.lt_succ_of_lt (hbs k hk)

theorem allocStaged_status (cfg : ContextConfig) (st : ContextState)
    (pid : String) (content : List Char) (importance : Rat)
    (page_type : PageType) (now : Nat) (hst : statusAllInMemory st) :
    statusAllInMemory
      (allocStaged cfg st pid content importance page_type now) := by
  refine ⟨?_, hst.2⟩
  intro e he
  rcases mem_lruPut he with h1 | h2
  · rw [h1]; rfl
  · exact hst.1 e h2

/-- Claim C8, amended: every context-manager operation preserves the
    invariant that a page id is owned by at most one tier (resident or
    swap, never both); the `status` field, however, is written only at
    page creation (always `InMemory`) and is never updated by eviction
    or by the page-fault path, so a state whose pages all carry status
    `InMemory` keeps that property — status does not track the owning
    tier. -/
theorem ctxStep_tier_invariant (cfg : ContextConfig) (st : ContextState)
    (op : CtxOp) (hwf : ctxWF st) :
    ctxWF (ctxStep cfg st op) ∧
      (statusAllInMemory st → statusAllInMemory (ctxStep cfg st op)) := by
  cases op with
  | alloc pid content importance page_type now =>
    show ctxWF (allocate_page cfg st pid content importance page_type
      now).2 ∧ _
    simp only [ctxStep, allocate_page]
    by_cases hev : cfg.max_context_tokens <
        (allocStaged cfg st pid content importance page_type
          now).token_usage
    · rw [if_pos hev]
      exact ⟨evict_pages_WF cfg _
          (allocStaged_WF cfg st pid content importance page_type now hwf),
        fun hst => evict_pages_status cfg _
          (allocStaged_status cfg st pid content importance page_type now
            hst)⟩
    · rw [if_neg hev]
      exact ⟨allocStaged_WF cfg st pid content importance page_type now hwf,
        fun hst =>
          allocStaged_status cfg st pid content importance page_type now
            hst⟩
  | access id now =>
    cases h1 : alookup id st.resident with
    | some page =>
      simp only [ctxStep, access_page, h1]
      have hd := hwf.1
      have hbr := hwf.2.1
      have hbs := hwf.2.2
      have hidm : id ∈ st.resident.map Prod.fst :=
        List.mem_map.2 ⟨(id, page), alookup_mem h1, rfl⟩
      refine ⟨⟨?_, ?_, hbs⟩, fun hst => ⟨?_, hst.2⟩⟩
      · intro k hk hks
        obtain ⟨e, he, hek⟩ := List.mem_map.1 hk
        rcases List.mem_cons.1 he with hh | ht
        · have hkid : k = id := by rw [← hek, hh]
          subst hkid
          exact hd k hidm hks
        · exact hd k (List.mem_map.2 ⟨e, List.mem_of_mem_filter ht, hek⟩) hks
      · intro k hk
        obtain ⟨e, he, hek⟩ := List.mem_map.1 hk
        rcases List.mem_cons.1 he with hh | ht
        · have hkid : k = id := by rw [← hek, hh]
          subst hkid
          exact hbr k hidm
        · exact hbr k (List.mem_map.2 ⟨e, List.mem_of_mem_filter ht, hek⟩)
      · intro e he
        rcases List.mem_cons.1 he with hh | ht
        · rw [hh]
          exact hst.1 (id, page) (alookup_mem h1)
        · exact hst.1 e (List.mem_of_mem_filter ht)
    | none =>
      cases h2 : alookup id st.swapped with
      | some page =>
        simp only [ctxStep, access_page, h1, h2]
        have hd := hwf.1
        have hbr := hwf.2.1
        have hbs := hwf.2.2
        have hids : id ∈ st.swapped.map Prod.fst :=
          List.mem_map.2 ⟨(id, page), alookup_mem h2, rfl⟩
        refine ⟨⟨?_, ?_, ?_⟩, fun hst => ⟨?_, ?_⟩⟩
        · intro k hk hks
          obtain ⟨hkid, hkm⟩ := mem_keys_filter_ne hks
          rcases keys_lruPut hk with hh | ht
          · exact hkid hh
          · exact hd k ht hkm
        · intro k hk
          rcases keys_lruPut hk with hh | ht
          · rw [hh]; exact hbs id hids
          · exact hbr k ht
        · intro k hk
          exact hbs k (mem_keys_filter_ne hk).2
        · intro e he
          rcases mem_lruPut he with hh | ht
          · rw [hh]
            exact hst.2 (id, page) (alookup_mem h2)
          · exact hst.1 e ht
        · intro e he
          exact hst.2 e (List.mem_of_mem_filter he)
      | none =>
        simp only [ctxStep, access_page, h1, h2]
        exact ⟨hwf, fun hst => hst⟩
  | assemble pid b now => exact ⟨hwf, fun hst => hst⟩
  | evict =>
    exact ⟨evict_pages_WF cfg st hwf, fun hst =>
      evict_pages_status cfg st hst⟩

/-- Claim C8, counterexample: after the eviction triggered by allocating
    an 11-token page under a 10-token cap, the page is owned by the swap
    tier yet its `status` field still reads `InMemory`, not `Swapped` —
    `evict_pages` never writes `status`. -/
theorem page_status_counterexample :
    (alookup 0
        (allocate_page exCtxCfg initCtx "a" exBig 1 PageType.User
          1).2.swapped).map ContextPage.status =
      some PageStatus.InMemory := by decide

/-- Witness for `ctxStep_tier_invariant` at a concrete input (an
    allocation that overflows the cap and drives the eviction path). -/
theorem ctxStep_tier_invariant_witness :
    ctxWF (ctxStep exCtxCfg initCtx
        (CtxOp.alloc "a" exBig 1 PageType.User 1)) ∧
      (statusAllInMemory initCtx →
        statusAllInMemory (ctxStep exCtxCfg initCtx
          (CtxOp.alloc "a" exBig 1 PageType.User 1))) :=
  ctxStep_tier_invariant exCtxCfg initCtx
    (CtxOp.alloc "a" exBig 1 PageType.User 1) (by decide)

/-! ## Scheduler theorems (claims C1, C6, C7) -/

/-- Claim C1 (code bug in `schedule`): from the initial state, add one
    process and schedule it.  The pid enters the running queue and the
    returned copy has state Running, but the process-table entry still
    reads Ready: `schedule` obtains the entry with
    `get_mut(&pid).cloned()` and assigns `state = Running` to the
    clone, so the table is never updated and the claimed invariant
    `state == Running ⇔ pid ∈ running` fails immediately. -/
theorem schedule_state_divergence :
    ((schedule prioSchedCfg
        (add_process initSched (AgentProcess.mk_new "p1" "Test Process" 50)
          0) 0).2.running_queue = ["p1"]) ∧
      ((alookup "p1" (schedule prioSchedCfg
          (add_process initSched
            (AgentProcess.mk_new "p1" "Test Process" 50) 0)
          0).2.processes).map AgentProcess.state =
        some AgentState.Ready) ∧
      ((schedule prioSchedCfg
          (add_process initSched
            (AgentProcess.mk_new "p1" "Test Process" 50) 0)
          0).1.map AgentProcess.state = some AgentState.Running) := by
  decide

theorem readyPrio_of_lookup {procs : List (String × AgentProcess)}
    {pid : String} {p : AgentProcess} (h : alookup pid procs = some p) :
    readyPrio procs pid = p.priority := by
  unfold readyPrio; rw [h]

theorem readyPrio_of_none {procs : List (String × AgentProcess)}
    {pid : String} (h : alookup pid procs = none) :
    readyPrio procs pid = 0 := by
  unfold readyPrio; rw [h]

theorem readyMax_cons (procs : List (String × AgentProcess)) (pid : String)
    (rest : List String) :
    readyMax procs (pid :: rest) =
      max (readyPrio procs pid) (readyMax procs rest) := rfl

theorem get?_eq_some_getD {l : List String} {j : Nat} (h : j < l.length) :
    l.get? j = some (l.getD j "") := by
  cases hg : l.get? j with
  | none => exact absurd (List.get?_eq_none.1 hg) (Nat.not_le.2 h)
  | some x =>
    rw [List.getD_eq_getD_get?, hg]
    rfl

/-- Characterization of the `select_priority_task` scan: the running
    maximum ends at `max b (readyMax l)`; the selected index is left
    untouched when nothing strictly exceeds `b`, and otherwise lands on
    the first index attaining the maximum. -/
theorem selectScan_spec (procs : List (String × AgentProcess)) :
    ∀ (l : List String) (i b : Nat) (s : Option Nat),
      (selectScan procs l i b s).1 = max b (readyMax procs l) ∧
      (readyMax procs l ≤ b → (selectScan procs l i b s).2 = s) ∧
      (b < readyMax procs l →
        ∃ j, j < l.length ∧
          (selectScan procs l i b s).2 = some (i + j) ∧
          readyPrio procs (l.getD j "") = readyMax procs l ∧
          ∀ k, k < j →
            readyPrio procs (l.getD k "") < readyMax procs l) := by
  intro l
  induction l with
  | nil =>
    intro i b s
    exact ⟨(Nat.max_zero b).symm, fun _ => rfl,
      fun hb => absurd hb (Nat.not_lt_zero b)⟩
  | cons pid rest ih =>
    intro i b s
    cases hl : alookup pid procs with
    | none =>
      have hq : readyPrio procs pid = 0 := readyPrio_of_none hl
      have hstep : selectScan procs (pid :: rest) i b s =
          selectScan procs rest (i + 1) b s := by
        simp [selectScan, hl]
      have hMM : readyMax procs (pid :: rest) = readyMax procs rest := by
        rw [readyMax_cons, hq, Nat.zero_max]
      obtain ⟨ih1, ih2, ih3⟩ := ih (i + 1) b s
      refine ⟨?_, ?_, ?_⟩
      · rw [hstep, ih1, hMM]
      · intro hle
        rw [hMM] at hle
        rw [hstep]
        exact ih2 hle
      · intro hlt
        rw [hMM] at hlt
        obtain ⟨j, hj, hsel, hget, hks⟩ := ih3 hlt
        refine ⟨j + 1, Nat.succ_lt_succ hj, ?_, ?_, ?_⟩
        · rw [hstep, hsel]
          congr 1
          omega
        · show readyPrio procs (rest.getD j "") = _
          rw [hget, hMM]
        · intro k hk
          cases k with
          | zero =>
            show readyPrio procs pid < _
            rw [hq, hMM]
            exact Nat.lt_of_le_of_lt (Nat.zero_le b) hlt
          | succ k' =>
            show readyPrio procs (rest.getD k' "") < _
            rw [hMM]
            exact hks k' (Nat.lt_of_succ_lt_succ hk)
    | some p =>
      have hq : readyPrio procs pid = p.priority := readyPrio_of_lookup hl
      by_cases hb : b < p.priority
      · have hstep : selectScan procs (pid :: rest) i b s =
            selectScan procs rest (i + 1) p.priority (some i) := by
          simp [selectScan, hl, hb]
        obtain ⟨ih1, ih2, ih3⟩ := ih (i + 1) p.priority (some i)
        refine ⟨?_, ?_, ?_⟩
        · rw [hstep, ih1, readyMax_cons, hq, ← Nat.max_assoc,
            Nat.max_eq_right (Nat.le_of_lt hb)]
        · intro hle
          rw [readyMax_cons, hq] at hle
          have hqb : p.priority ≤ b :=
            Nat.le_trans (Nat.le_max_left _ _) hle
          exact absurd hb (Nat.not_lt.2 hqb)
        · intro _
          by_cases hMr : readyMax procs rest ≤ p.priority
          · have hMM : readyMax procs (pid :: rest) = p.priority := by
              rw [readyMax_cons, hq]
              exact Nat.max_eq_left hMr
            refine ⟨0, Nat.succ_pos _, ?_, ?_, ?_⟩
            · rw [hstep, ih2 hMr, Nat.add_zero]
            · show readyPrio procs pid = _
              rw [hq, hMM]
            · intro k hk
              exact absurd hk (Nat.not_lt_zero k)
          · have hMr' : p.priority < readyMax procs rest :=
              Nat.lt_of_not_le hMr
            have hMM : readyMax procs (pid :: rest) =
                readyMax procs rest := by
              rw [readyMax_cons, hq]
              exact Nat.max_eq_right (Nat.le_of_lt hMr')
            obtain ⟨j, hj, hsel, hget, hks⟩ := ih3 hMr'
            refine ⟨j + 1, Nat.succ_lt_succ hj, ?_, ?_, ?_⟩
            · rw [hstep, hsel]
              congr 1
              omega
            · show readyPrio procs (rest.getD j "") = _
              rw [hget, hMM]
            · intro k hk
              cases k with
              | zero =>
                show readyPrio procs pid < _
                rw [hq, hMM]
                exact hMr'
              | succ k' =>
                show readyPrio procs (rest.getD k' "") < _
                rw [hMM]
                exact hks k' (Nat.lt_of_succ_lt_succ hk)
      · have hqb : p.priority ≤ b := Nat.not_lt.1 hb
        have hstep : selectScan procs (pid :: rest) i b s =
            selectScan procs rest (i + 1) b s := by
          simp [selectScan, hl, hb]
        obtain ⟨ih1, ih2, ih3⟩ := ih (i + 1) b s
        refine ⟨?_, ?_, ?_⟩
        · rw [hstep, ih1, readyMax_cons, hq, ← Nat.max_assoc,
            Nat.max_eq_left hqb]
        · intro hle
          rw [readyMax_cons] at hle
          rw [hstep]
          exact ih2 (Nat.le_trans (Nat.le_max_right _ _) hle)
        · intro hlt
          have hbr : b < readyMax procs rest := by
            rw [readyMax_cons, hq] at hlt
            by_cases hcmp : p.priority ≤ readyMax procs rest
            · rwa [Nat.max_eq_right hcmp] at hlt
            · rw [Nat.max_eq_left (Nat.le_of_not_le hcmp)] at hlt
              exact absurd hlt (Nat.not_lt.2 hqb)
          have hMM : readyMax procs (pid :: rest) =
              readyMax procs rest := by
            rw [readyMax_cons, hq]
            exact Nat.max_eq_right
              (Nat.le_trans hqb (Nat.le_of_lt hbr))
          obtain ⟨j, hj, hsel, hget, hks⟩ := ih3 hbr
          refine ⟨j + 1, Nat.succ_lt_succ hj, ?_, ?_, ?_⟩
          · rw [hstep, hsel]
            congr 1
            omega
          · show readyPrio procs (rest.getD j "") = _
            rw [hget, hMM]
          · intro k hk
            cases k with
            | zero =>
              show readyPrio procs pid < _
              rw [hq, hMM]
              exact Nat.lt_of_le_of_lt hqb hbr
            | succ k' =>
              show readyPrio procs (rest.getD k' "") < _
              rw [hMM]
              exact hks k' (Nat.lt_of_succ_lt_succ hk)

/-- Claim C6, amended: under the Priority policy, whenever some ready
    pid tracked in the process table has priority ≥ 1,
    `select_priority_task` removes and returns the earliest-enqueued
    ready pid of maximal priority (ties broken FIFO; untracked pids act
    as priority 0); but when every ready priority is 0 — in particular
    a non-empty ready queue whose processes all have priority 0 — the
    strict `> max_priority` scan starting at 0 selects nothing, the
    queue is left unchanged and `schedule()` returns no process. -/
theorem select_priority_spec (st : SchedulerState) :
    (maxReadyPrio st = 0 → select_priority_task st = (none, st)) ∧
      (0 < maxReadyPrio st →
        ∃ i pid, st.ready_queue.get? i = some pid ∧
          select_priority_task st =
            (some pid,
              { st with ready_queue := st.ready_queue.eraseIdx i }) ∧
          readyPrio st.processes pid = maxReadyPrio st ∧
          ∀ k pidk, k < i → st.ready_queue.get? k = some pidk →
            readyPrio st.processes pidk < maxReadyPrio st) := by
  obtain ⟨h1, h2, h3⟩ :=
    selectScan_spec st.processes st.ready_queue 0 0 none
  constructor
  · intro hzero
    have hsel : (selectScan st.processes st.ready_queue 0 0 none).2 =
        none := h2 (Nat.le_of_eq hzero)
    unfold select_priority_task
    rw [hsel]
  · intro hpos
    obtain ⟨j, hj, hsel, hget, hks⟩ := h3 hpos
    refine ⟨j, st.ready_queue.getD j "", get?_eq_some_getD hj, ?_, hget,
      ?_⟩
    · simp only [select_priority_task, hsel, Nat.zero_add,
        get?_eq_some_getD hj]
    · intro k pidk hk hgetk
      have hd : st.ready_queue.getD k "" = pidk := by
        have := get?_eq_some_getD (Nat.lt_trans hk hj)
        rw [hgetk] at this
        exact (Option.some.inj this).symm
      rw [← hd]
      exact hks k hk

/-- Claim C6, counterexample: one ready process of priority 0 (priority
    ranges over 0..=255).  The scan's running maximum starts at 0 with a
    strict comparison, so nothing is selected: `schedule()` returns no
    process even though the ready queue is non-empty, contradicting the
    claim as stated. -/
theorem priority_zero_counterexample :
    ((schedule prioSchedCfg
        (add_process initSched (AgentProcess.mk_new "p0" "Zero" 0) 0)
        0).1 = none) ∧
      (add_process initSched (AgentProcess.mk_new "p0" "Zero" 0)
        0).ready_queue ≠ [] := by decide

/-- Witness for `select_priority_spec` on the spec's two-process
    scenario (priorities 90 and 30): the positive branch applies. -/
theorem select_priority_spec_witness :
    ∃ i pid, exSchedHiLo.ready_queue.get? i = some pid ∧
      select_priority_task exSchedHiLo =
        (some pid,
          { exSchedHiLo with
              ready_queue := exSchedHiLo.ready_queue.eraseIdx i }) ∧
      readyPrio exSchedHiLo.processes pid = maxReadyPrio exSchedHiLo ∧
      ∀ k pidk, k < i → exSchedHiLo.ready_queue.get? k = some pidk →
        readyPrio exSchedHiLo.processes pidk < maxReadyPrio exSchedHiLo :=
  (select_priority_spec exSchedHiLo).2 (by decide)

/-- Claim C7: for a pid tracked in `resource_usage`,
    `request_resources` grants iff `window_tokens + tokens_needed`
    stays within the preemption threshold; on success it adds the
    tokens to both counters, bumps `api_calls` and refreshes
    `last_active`; on refusal the whole scheduler state (hence the
    pid's record) is unchanged, so `total_tokens` and `api_calls`
    never decrease. -/
theorem request_resources_spec (cfg : SchedulerConfig)
    (st : SchedulerState) (pid : String) (tokens_needed now : Nat)
    (u : ResourceUsage) (hu : alookup pid st.resource_usage = some u) :
    ((request_resources cfg st pid tokens_needed now).1 = true ↔
        u.window_tokens + tokens_needed ≤ cfg.preemption_threshold) ∧
      ((request_resources cfg st pid tokens_needed now).1 = true →
        alookup pid
            (request_resources cfg st pid tokens_needed
              now).2.resource_usage =
          some { total_tokens := u.total_tokens + tokens_needed
                 window_tokens := u.window_tokens + tokens_needed
                 api_calls := u.api_calls + 1
                 runtime_ms := u.runtime_ms
                 last_active := now }) ∧
      ((request_resources cfg st pid tokens_needed now).1 = false →
        (request_resources cfg st pid tokens_needed now).2 = st) := by
  by_cases h : u.window_tokens + tokens_needed ≤ cfg.preemption_threshold
  · simp only [request_resources, hu, if_pos h]
    refine ⟨by simp [h], fun _ => ?_, by simp⟩
    rw [alookup_aupdate, hu]
    rfl
  · simp only [request_resources, hu, if_neg h]
    exact ⟨by simp [h], by simp, fun _ => trivial⟩

/-- Witness for `request_resources_spec`: a fresh process requesting
    9999 tokens against the 10000-token threshold. -/
theorem request_resources_spec_witness :
    ((request_resources prioSchedCfg
        (add_process initSched (AgentProcess.mk_new "p1" "T" 50) 0)
        "p1" 9999 5).1 = true ↔
      (ResourceUsage.mk_default 0).window_tokens + 9999 ≤
        prioSchedCfg.preemption_threshold) ∧
    ((request_resources prioSchedCfg
        (add_process initSched (AgentProcess.mk_new "p1" "T" 50) 0)
        "p1" 9999 5).1 = true →
      alookup "p1"
          (request_resources prioSchedCfg
            (add_process initSched (AgentProcess.mk_new "p1" "T" 50) 0)
            "p1" 9999 5).2.resource_usage =
        some { total_tokens :=
                (ResourceUsage.mk_default 0).total_tokens + 9999
               window_tokens :=
                (ResourceUsage.mk_default 0).window_tokens + 9999
               api_calls := (ResourceUsage.mk_default 0).api_calls + 1
               runtime_ms := (ResourceUsage.mk_default 0).runtime_ms
               last_active := 5 }) ∧
    ((request_resources prioSchedCfg
        (add_process initSched (AgentProcess.mk_new "p1" "T" 50) 0)
        "p1" 9999 5).1 = false →
      (request_resources prioSchedCfg
        (add_process initSched (AgentProcess.mk_new "p1" "T" 50) 0)
        "p1" 9999 5).2 =
        add_process initSched (AgentProcess.mk_new "p1" "T" 50) 0) :=
  request_resources_spec prioSchedCfg
    (add_process initSched (AgentProcess.mk_new "p1" "T" 50) 0) "p1" 9999 5
    (ResourceUsage.mk_default 0) (by decide)

/-! ## Security sandbox theorems (claims C9 and C10) -/

/-- Claim C9: for every pid whose registered sandbox policy has level
    Restricted and for every operation (network, file or syscall with
    any argument), `check_operation` returns a SecurityViolation of
    severity Critical — in particular for `SystemCall("execve")`. -/
theorem restricted_check_critical (st : SandboxManagerState)
    (pid : String) (operation : SecurityOperation) (now : Nat)
    (sandbox : SandboxConfig)
    (hs : alookup pid st.sandboxes = some sandbox)
    (hlvl : sandbox.policy.level = PermissionLevel.Restricted) :
    ∃ v : SecurityViolation,
      (check_operation st pid operation now).1 = Except.error v ∧
        v.severity = SecuritySeverity.Critical := by
  have hcp : sandbox.policy.check_permission operation =
      check_restricted_permission sandbox.policy operation := by
    unfold SecurityPolicy.check_permission
    rw [hlvl]
  simp only [check_operation, hs, hcp, check_restricted_permission]
  exact ⟨_, rfl, rfl⟩

/-- Witness for `restricted_check_critical`: the spec's Restricted
    scenario, `check_operation(pid, SystemCall("execve"))`. -/
theorem restricted_check_critical_witness :
    ∃ v : SecurityViolation,
      (check_operation exSandboxMgr "test-sandbox-1"
          (SecurityOperation.SystemCall "execve") 3).1 =
        Except.error v ∧
        v.severity = SecuritySeverity.Critical :=
  restricted_check_critical exSandboxMgr "test-sandbox-1"
    (SecurityOperation.SystemCall "execve") 3
    { policy := exRestrictedPolicy } (by decide) (by decide)

/-- Claim C10: for a pid with no registered sandbox, `check_operation`
    returns success and leaves the manager — in particular the audit
    log — completely unchanged: the sandbox is allow-by-default for
    unregistered processes (the kernel's `enable_sandbox` flag only
    decides whether a manager exists at all; a present manager still
    allows unregistered pids). -/
theorem unregistered_check_allows (st : SandboxManagerState)
    (pid : String) (operation : SecurityOperation) (now : Nat)
    (hs : alookup pid st.sandboxes = none) :
    check_operation st pid operation now = (Except.ok (), st) := by
  simp only [check_operation, hs]

/-- Witness for `unregistered_check_allows` on the empty manager. -/
theorem unregistered_check_allows_witness :
    check_operation initSandboxManager "ghost"
        (SecurityOperation.SystemCall "execve") 0 =
      (Except.ok (), initSandboxManager) :=
  unregistered_check_allows initSandboxManager "ghost"
    (SecurityOperation.SystemCall "execve") 0 (by decide)

/-- Witness for `allocate_page_visible` at a concrete input (cap 10, one
    2-token page, no eviction). -/
theorem allocate_page_visible_witness :
    0 ∈ indexIds
        (allocate_page exCtxCfg initCtx "a" exSmallA 1 PageType.User 1).2
        "a" ∧
      (pageTokenSum (collectPages
            (allocate_page exCtxCfg initCtx "a" exSmallA 1 PageType.User
              1).2 "a") ≤ exCtxCfg.max_context_tokens →
        ∃ m ∈ get_agent_context exCtxCfg
            (allocate_page exCtxCfg initCtx "a" exSmallA 1 PageType.User
              1).2
            "a" true 9, m.content = exSmallA) :=
  allocate_page_visible exCtxCfg initCtx "a" exSmallA 1 PageType.User 1
    true 9 0
    (allocate_page exCtxCfg initCtx "a" exSmallA 1 PageType.User 1).2
    (by decide) (by decide)

end AgentOS
